import Mathlib

/-
Verification of the regex-crossword solver consisting of
`src/main.py`, `src/solver/backtracking.py` and `src/solver/regex_engine.py`.

Python strings are embedded as `List Char`; the grid (a Python list of lists
of one-character-or-empty strings) as `List (List (List Char))`.  Compiled
regular expressions (the `pattern` arguments handed to Python's `re.match` /
`re.fullmatch`) are embedded as an explicit syntax tree `RE`; the boolean
outcome `re.fullmatch(p, s) is not None` is the derivative-based `reFullmatch`
and the boolean outcome `re.match(p, s) is not None` (the whole pattern
matches some prefix of `s`, anchored at the start only) is `reMatch`.
-/

abbrev Str := List Char

abbrev Grid := List (List Str)

/-- Syntax trees of the regular-expression dialect the puzzles use:
the empty language, the empty word, a literal character, the wildcard,
concatenation, alternation and Kleene star. -/
inductive RE where
  | void : RE
  | eps : RE
  | chr (c : Char) : RE
  | wild : RE
  | cat (a b : RE) : RE
  | alt (a b : RE) : RE
  | star (a : RE) : RE
deriving DecidableEq

/-- Python's `r+` is `r` followed by `r*`. -/
def plusRE (a : RE) : RE := RE.cat a (RE.star a)

/-- Python's `r?` is `r` or the empty word. -/
def optRE (a : RE) : RE := RE.alt RE.eps a

/-- Does the pattern accept the empty word. -/
def nullable : RE → Bool
  | RE.void => false
  | RE.eps => true
  | RE.chr _ => false
  | RE.wild => false
  | RE.cat a b => nullable a && nullable b
  | RE.alt a b => nullable a || nullable b
  | RE.star _ => true

/-- Brzozowski derivative of a pattern by one character. -/
def rederiv : RE → Char → RE
  | RE.void, _ => RE.void
  | RE.eps, _ => RE.void
  | RE.chr c, d => if c = d then RE.eps else RE.void
  | RE.wild, _ => RE.eps
  | RE.cat a b, d =>
      if nullable a then RE.alt (RE.cat (rederiv a d) b) (rederiv b d)
      else RE.cat (rederiv a d) b
  | RE.alt a b, d => RE.alt (rederiv a d) (rederiv b d)
  | RE.star a, d => RE.cat (rederiv a d) (RE.star a)

/-- Model of the boolean outcome of Python's `re.fullmatch(pattern, text)`:
the pattern matches the whole text, anchored at both ends. -/
def reFullmatch (r : RE) (s : Str) : Bool := nullable (s.foldl rederiv r)

/-- Model of the boolean outcome of Python's `re.match(pattern, text)`:
the whole pattern matches some prefix of the text, anchored at the start
only (the text may continue after the match). -/
def reMatch : RE → Str → Bool
  | r, [] => nullable r
  | r, c :: cs => nullable r || reMatch (rederiv r c) cs

/-- Does the first string start with the second. -/
def strStarts : Str → Str → Bool
  | _, [] => true
  | [], _ :: _ => false
  | c :: cs, d :: ds => decide (c = d) && strStarts cs ds

/-- Model of Python's substring containment `sub in t` for strings:
some suffix of `t` starts with `sub`.  In particular the empty string is
contained in every string, exactly as in Python. -/
def strHasSub : Str → Str → Bool
  | [], sub => strStarts [] sub
  | c :: ts, sub => strStarts (c :: ts) sub || strHasSub ts sub

/-- Embedding of `check_regex` from `src/solver/regex_engine.py`:
if the empty string (the solver's empty-cell sentinel) is contained in
`text`, return whether `re.match` succeeds, else return whether
`re.fullmatch` succeeds. -/
def check_regex (pattern : RE) (text : Str) : Bool :=
  if strHasSub text [] then reMatch pattern text else reFullmatch pattern text

/-- Embedding of the puzzle dictionary consumed by `solve`: keys `size`,
`alphabet`, `row_regex`, `col_regex`, with the patterns already compiled. -/
structure Puzzle where
  size : Nat
  alphabet : List Str
  row_regex : List RE
  col_regex : List RE

/-- Read `grid[r][c]`; out-of-range reads yield the empty string (all
in-contract accesses are in range). -/
def getCell (g : Grid) (r c : Nat) : Str := (g.getD r []).getD c []

/-- Model of the in-place assignment `grid[r][c] = v`; out-of-range writes
are no-ops (all in-contract writes are in range). -/
def setCell (g : Grid) (r c : Nat) (v : Str) : Grid :=
  g.set r ((g.getD r []).set c v)

/-- Model of `row_string = "".join(grid[row])`. -/
def joinRow (g : Grid) (r : Nat) : Str := (g.getD r []).flatten

/-- Model of `col_string = "".join([grid[r][col] for r in range(size)])`. -/
def joinCol (g : Grid) (c : Nat) (size : Nat) : Str :=
  ((List.range size).map (fun r => getCell g r c)).flatten

/-- Model of `next_row = row + (col+1)//size` from `backtracking.py`. -/
def nextRow (size row col : Nat) : Nat := row + (col + 1) / size

/-- Model of `next_col = (col+1)%size` from `backtracking.py`. -/
def nextCol (size col : Nat) : Nat := (col + 1) % size

/-- The `for letter in puzzle["alphabet"]` loop of `solve`: assign the
letter to cell `(row, col)`, check the row string then the column string
with `check_regex`, recurse (`next`) when both pass; on a failed check or a
failed recursion continue with the next letter (the cell keeps the letter,
exactly as in the Python loop); when the letters are exhausted, reset the
cell to the empty string and report failure. -/
def tryLetters (next : Grid → Option (Bool × Grid)) (p : Puzzle)
    (row col : Nat) : List Str → Grid → Option (Bool × Grid)
  | [], g => some (false, setCell g row col [])
  | letter :: rest, g =>
    let g1 := setCell g row col letter
    if check_regex (p.row_regex.getD row RE.eps) (joinRow g1 row) then
      if check_regex (p.col_regex.getD col RE.eps) (joinCol g1 col p.size) then
        match next g1 with
        | none => none
        | some (true, g2) => some (true, g2)
        | some (false, g2) => tryLetters next p row col rest g2
      else tryLetters next p row col rest g1
    else tryLetters next p row col rest g1

/-- Embedding of `solve(grid, puzzle, row, col)` from
`src/solver/backtracking.py`, with the mutated grid threaded explicitly and
a fuel argument bounding the recursion depth (`none` means out of fuel; the
recursion is proved to need at most `size * size + 1` fuel from the start
position, see the termination theorem). -/
def solveF : Nat → Grid → Puzzle → Nat → Nat → Option (Bool × Grid)
  | 0, _, _, _, _ => none
  | fuel + 1, g, p, row, col =>
    if row = p.size then some (true, g)
    else
      tryLetters
        (fun g1 => solveF fuel g1 p (nextRow p.size row col) (nextCol p.size col))
        p row col p.alphabet g

/-- Modelled from the spec: `solver/grid.py` (`empty_grid`), imported by
`src/main.py`, is not under `src/`; the spec says the Grid starts with
every cell holding the empty sentinel, which the revert statement
`grid[row][col] = ""` in `backtracking.py` shows to be the empty string. -/
def empty_grid (n : Nat) : Grid := List.replicate n (List.replicate n [])

/-- The solver entry point of the spec, `solve(puzzle) -> (success, grid)`:
run `solveF` from an all-empty grid at position `(0, 0)` with fuel
`size * size + 1`, which the termination theorem shows is never exhausted. -/
def solve (p : Puzzle) : Bool × Grid :=
  match solveF (p.size * p.size + 1) (empty_grid p.size) p 0 0 with
  | some r => r
  | none => (false, empty_grid p.size)

/-- Consume the postfix quantifiers `*`, `+`, `?` following an atom. -/
def quants : RE → Str → RE × Str
  | r, [] => (r, [])
  | r, c :: rest =>
    if c = '*' then quants (RE.star r) rest
    else if c = '+' then quants (plusRE r) rest
    else if c = '?' then quants (optRE r) rest
    else (r, c :: rest)

/-- Grammar level being parsed: alternation, concatenation, or a single
quantified atom. -/
inductive PMode where
  | palt : PMode
  | pcat : PMode
  | patom : PMode

/-- Modelled from the spec: recursive-descent recogniser for the spec's
"standard dialect" of regular expressions (literals, the `.` wildcard,
grouping with parentheses, the quantifiers `*` `+` `?`, and alternation
with `|`), used by the puzzle loader, which is not under `src/`.  Returns
the parsed pattern and the unconsumed remainder, `none` on a malformed
input; the fuel argument bounds the recursion depth. -/
def parseStep : Nat → PMode → Str → Option (RE × Str)
  | 0, _, _ => none
  | f + 1, PMode.palt, s =>
    match parseStep f PMode.pcat s with
    | none => none
    | some (r1, s1) =>
      match s1 with
      | '|' :: s2 =>
        match parseStep f PMode.palt s2 with
        | none => none
        | some (r2, s3) => some (RE.alt r1 r2, s3)
      | _ => some (r1, s1)
  | f + 1, PMode.pcat, s =>
    match parseStep f PMode.patom s with
    | none => some (RE.eps, s)
    | some (a, s1) =>
      match quants a s1 with
      | (a2, s2) =>
        match parseStep f PMode.pcat s2 with
        | none => none
        | some (r2, s3) => some (RE.cat a2 r2, s3)
  | f + 1, PMode.patom, s =>
    match s with
    | [] => none
    | c :: rest =>
      if c = '(' then
        match parseStep f PMode.palt rest with
        | some (r, ')' :: s2) => some (r, s2)
        | _ => none
      else if c = '|' ∨ c = '*' ∨ c = '+' ∨ c = '?' ∨ c = ')' then none
      else if c = '.' then some (RE.wild, rest)
      else some (RE.chr c, rest)

/-- A pattern string is well-formed when the recogniser consumes it
entirely. -/
def parseRE (s : Str) : Option RE :=
  match parseStep (4 * s.length + 4) PMode.palt s with
  | some (r, []) => some r
  | _ => none

/-- Compile a list of pattern strings; `none` as soon as one is
malformed. -/
def parsePatterns : List Str → Option (List RE)
  | [] => some []
  | s :: rest =>
    match parseRE s with
    | none => none
    | some r =>
      match parsePatterns rest with
      | none => none
      | some rs => some (r :: rs)

/-- The error taxonomy of the spec that the loader can raise. -/
inductive PuzzleError where
  | invalidPattern : PuzzleError
deriving DecidableEq

/-- A puzzle as read from the input file: the patterns are still raw
strings. -/
structure RawPuzzle where
  size : Nat
  alphabet : List Str
  row_regex : List Str
  col_regex : List Str

/-- Modelled from the spec: `utils/data_loader.py` (`load_puzzle`),
imported by `src/main.py`, is not under `src/`; per the spec the loader
validates every row and column pattern at puzzle-load time and fails with
`InvalidPatternError` when one is not a well-formed regular expression,
before the solver is invoked. -/
def load_puzzle (raw : RawPuzzle) : Except PuzzleError Puzzle :=
  match parsePatterns raw.row_regex with
  | none => Except.error PuzzleError.invalidPattern
  | some rs =>
    match parsePatterns raw.col_regex with
    | none => Except.error PuzzleError.invalidPattern
    | some cs => Except.ok (Puzzle.mk raw.size raw.alphabet rs cs)

/-- Embedding of `src/main.py`: load the puzzle, then run the solver on an
all-empty grid; a load error aborts before any search. -/
def mainRun (raw : RawPuzzle) : Except PuzzleError (Bool × Grid) :=
  match load_puzzle raw with
  | Except.error e => Except.error e
  | Except.ok p => Except.ok (solve p)

/-- A grid has `n` rows of `n` cells each. -/
def wellShaped (n : Nat) (g : Grid) : Prop :=
  g.length = n ∧ ∀ ro ∈ g, ro.length = n

/-- Every cell strictly after `(row, col)` in row-major order holds the
empty sentinel. -/
def emptyAfter (n : Nat) (g : Grid) (row col : Nat) : Prop :=
  ∀ r c, r < n → c < n → row * n + col < r * n + c → getCell g r c = []

/-- The compiled pattern of the string pattern spelled `A`. -/
def pOneA : RE := RE.chr 'A'

/-- The compiled pattern of the string pattern spelled `AB`. -/
def pAB : RE := RE.cat (RE.chr 'A') (RE.chr 'B')

/-- The compiled pattern of the string pattern spelled `BA`. -/
def pBA : RE := RE.cat (RE.chr 'B') (RE.chr 'A')

/-- The compiled pattern of the string pattern spelled `AA`. -/
def pAA : RE := RE.cat (RE.chr 'A') (RE.chr 'A')

/-- The compiled pattern of the string pattern spelled `A+B`. -/
def pApB : RE := RE.cat (plusRE (RE.chr 'A')) (RE.chr 'B')

/-- Puzzle with N = 2, alphabet with only letter A, every row and column
constrained by the pattern `A`. -/
def pzAllA : Puzzle := Puzzle.mk 2 [['A']] [pOneA, pOneA] [pOneA, pOneA]

/-- The spec's example puzzle: N = 2, alphabet A then B, row patterns
`AB` and `BA`, column patterns `AB` and `BA`. -/
def pzABBA : Puzzle := Puzzle.mk 2 [['A'], ['B']] [pAB, pBA] [pAB, pBA]

/-- The spec's unsatisfiable example: N = 2, alphabet with only A, row
patterns `AA`, column patterns `AB` (no B available). -/
def pzUnsat : Puzzle := Puzzle.mk 2 [['A']] [pAA, pAA] [pAB, pAB]

/-- The spec's N = 1 example puzzle: alphabet A then B, row pattern `A`,
column pattern `A`. -/
def pzOne : Puzzle := Puzzle.mk 1 [['A'], ['B']] [pOneA] [pOneA]

/-- A second, separately written copy of `pzOne` with identical size,
alphabet order and patterns, used to state determinism across two runs. -/
def pzOneAgain : Puzzle := Puzzle.mk 1 [['A'], ['B']] [pOneA] [pOneA]

/-- A raw puzzle whose first row pattern is the lone `(` — not a
well-formed regular expression. -/
def rawBad : RawPuzzle := RawPuzzle.mk 1 [['A']] [['(']] [['A']]

theorem list_set_getD_self {α : Type} (l : List α) (i : Nat) (d : α) :
    l.set i (l.getD i d) = l := by
  induction l generalizing i with
  | nil => rfl
  | cons a t ih =>
    cases i with
    | zero => rfl
    | succ j => simpa [List.set, List.getD] using ih j

theorem list_getD_set_ne {α : Type} (l : List α) (i j : Nat) (v d : α)
    (h : i ≠ j) : (l.set i v).getD j d = l.getD j d := by
  induction l generalizing i j with
  | nil => rfl
  | cons a t ih =>
    cases i with
    | zero =>
      cases j with
      | zero => exact absurd rfl h
      | succ j' => rfl
    | succ i' =>
      cases j with
      | zero => rfl
      | succ j' => simpa [List.set, List.getD] using ih i' j' (by omega)

theorem list_getD_set_self {α : Type} (l : List α) (i : Nat) (v d : α)
    (h : i < l.length) : (l.set i v).getD i d = v := by
  rw [List.getD_eq_getElem?_getD, List.getElem?_set_self h]
  rfl

theorem list_set_oob {α : Type} (l : List α) (i : Nat) (v : α)
    (h : l.length ≤ i) : l.set i v = l := by
  induction l generalizing i with
  | nil => rfl
  | cons a t ih =>
    cases i with
    | zero => simp at h
    | succ j => simpa [List.set] using ih j (by simpa using h)

theorem list_getD_replicate {α : Type} (n i : Nat) (v d : α) :
    (List.replicate n v).getD i d = if i < n then v else d := by
  induction n generalizing i with
  | zero => simp [List.getD]
  | succ m ih =>
    cases i with
    | zero => simp [List.replicate, List.getD]
    | succ j => simpa [List.replicate, List.getD] using ih j

theorem setCell_setCell (g : Grid) (r c : Nat) (a b : Str) :
    setCell (setCell g r c a) r c b = setCell g r c b := by
  unfold setCell
  by_cases hr : r < g.length
  · rw [list_getD_set_self _ _ _ _ hr, List.set_set, List.set_set]
  · rw [list_set_oob g r _ (by omega), list_set_oob g r _ (by omega)]

theorem setCell_self (g : Grid) (r c : Nat) :
    setCell g r c (getCell g r c) = g := by
  unfold setCell getCell
  rw [list_set_getD_self, list_set_getD_self]

theorem setCell_oob (g : Grid) (r c : Nat) (v : Str) (h : g.length ≤ r) :
    setCell g r c v = g := by
  unfold setCell
  exact list_set_oob _ _ _ h

theorem getCell_setCell_ne (g : Grid) {r c r' c' : Nat} (v : Str)
    (h : r ≠ r' ∨ c ≠ c') : getCell (setCell g r c v) r' c' = getCell g r' c' := by
  unfold getCell setCell
  by_cases hrr : r = r'
  · subst hrr
    have hc : c ≠ c' := h.resolve_left (by simp)
    by_cases hr : r < g.length
    · rw [list_getD_set_self _ _ _ _ hr, list_getD_set_ne _ _ _ _ _ hc]
    · rw [list_set_oob g r _ (by omega)]
  · rw [list_getD_set_ne _ _ _ _ _ hrr]

theorem wellShaped_setCell {n : Nat} {g : Grid} (h : wellShaped n g)
    (r c : Nat) (v : Str) : wellShaped n (setCell g r c v) := by
  obtain ⟨hlen, hrows⟩ := h
  by_cases hr : r < g.length
  · constructor
    · rw [setCell, List.length_set, hlen]
    · intro ro hro
      rcases List.mem_or_eq_of_mem_set hro with hin | heq
      · exact hrows ro hin
      · have : (g.getD r []).length = n := by
          rw [List.getD_eq_getElem?_getD, List.getElem?_eq_getElem hr]
          exact hrows _ (List.getElem_mem hr)
        rw [heq, List.length_set, this]
  · rw [setCell_oob g r c v (by omega)]
    exact ⟨hlen, hrows⟩

theorem wellShaped_empty (n : Nat) : wellShaped n (empty_grid n) := by
  constructor
  · simp [empty_grid]
  · intro ro hro
    rw [List.eq_of_mem_replicate hro]
    simp

theorem getCell_empty (n r c : Nat) : getCell (empty_grid n) r c = [] := by
  unfold getCell empty_grid
  rw [list_getD_replicate]
  by_cases hr : r < n
  · rw [if_pos hr, list_getD_replicate]
    by_cases hc : c < n
    · rw [if_pos hc]
    · rw [if_neg hc]
  · rw [if_neg hr]
    rfl

theorem emptyAfter_empty (n row col : Nat) : emptyAfter n (empty_grid n) row col :=
  fun r c _ _ _ => getCell_empty n r c

theorem emptyAfter_setCell_here {n : Nat} {g : Grid} {row col : Nat}
    (he : emptyAfter n g row col) (v : Str) :
    emptyAfter n (setCell g row col v) row col := by
  intro r c hr hc hgt
  have hne : row ≠ r ∨ col ≠ c := by
    by_contra hcon
    push_neg at hcon
    obtain ⟨h1, h2⟩ := hcon
    subst h1; subst h2
    exact lt_irrefl _ hgt
  rw [getCell_setCell_ne _ _ hne]
  exact he r c hr hc hgt

theorem idx_next {size row col : Nat} :
    nextRow size row col * size + nextCol size col = row * size + col + 1 := by
  unfold nextRow nextCol
  have hd : size * ((col + 1) / size) + (col + 1) % size = col + 1 :=
    Nat.div_add_mod _ _
  have he : (row + (col + 1) / size) * size =
      row * size + ((col + 1) / size) * size := Nat.add_mul _ _ _
  have hc : ((col + 1) / size) * size = size * ((col + 1) / size) :=
    Nat.mul_comm _ _
  omega

theorem next_row_le {size row col : Nat} (hr : row < size) (hc : col < size) :
    nextRow size row col ≤ size := by
  unfold nextRow
  have h1 : (col + 1) / size ≤ 1 := by
    calc (col + 1) / size ≤ size / size := Nat.div_le_div_right (by omega)
    _ = 1 := Nat.div_self (by omega)
  omega

theorem next_col_lt {size col : Nat} (hc : col < size) :
    nextCol size col < size := Nat.mod_lt _ (by omega)

theorem tryLetters_false {p : Puzzle} {row col : Nat}
    {next : Grid → Option (Bool × Grid)}
    (hcol : col < p.size)
    (hnext : ∀ h h', wellShaped p.size h →
      emptyAfter p.size h (nextRow p.size row col) (nextCol p.size col) →
      next h = some (false, h') →
      h' = setCell h (nextRow p.size row col) (nextCol p.size col) []) :
    ∀ (letters : List Str) (g g' : Grid), wellShaped p.size g →
      emptyAfter p.size g row col →
      tryLetters next p row col letters g = some (false, g') →
      g' = setCell g row col [] := by
  intro letters
  induction letters with
  | nil =>
    intro g g' _ _ hrun
    simp only [tryLetters, Option.some.injEq, Prod.mk.injEq, true_and] at hrun
    exact hrun.symm
  | cons letter rest ih =>
    intro g g' hs he hrun
    simp only [tryLetters] at hrun
    have hs1 : wellShaped p.size (setCell g row col letter) :=
      wellShaped_setCell hs _ _ _
    have he1 : emptyAfter p.size (setCell g row col letter) row col :=
      emptyAfter_setCell_here he _
    by_cases hck1 : check_regex (p.row_regex.getD row RE.eps)
        (joinRow (setCell g row col letter) row) = true
    · rw [if_pos hck1] at hrun
      by_cases hck2 : check_regex (p.col_regex.getD col RE.eps)
          (joinCol (setCell g row col letter) col p.size) = true
      · rw [if_pos hck2] at hrun
        cases hng : next (setCell g row col letter) with
        | none =>
          rw [hng] at hrun
          exact absurd hrun (by simp)
        | some pr =>
          obtain ⟨b, g2⟩ := pr
          rw [hng] at hrun
          cases b with
          | true => simp at hrun
          | false =>
            have he2 : emptyAfter p.size (setCell g row col letter)
                (nextRow p.size row col) (nextCol p.size col) := by
              intro r c hr hc hgt
              have hidx := @idx_next p.size row col
              have hgt' : row * p.size + col < r * p.size + c := by omega
              have hne : row ≠ r ∨ col ≠ c := by
                by_contra hcon
                push_neg at hcon
                obtain ⟨e1, e2⟩ := hcon
                subst e1; subst e2
                exact lt_irrefl _ hgt'
              rw [getCell_setCell_ne _ _ hne]
              exact he r c hr hc hgt'
            have hg2 := hnext _ _ hs1 he2 hng
            have hg2eq : g2 = setCell g row col letter := by
              by_cases hnr : nextRow p.size row col < p.size
              · have hcell : getCell (setCell g row col letter)
                    (nextRow p.size row col) (nextCol p.size col) = [] := by
                  have hne : row ≠ nextRow p.size row col ∨
                      col ≠ nextCol p.size col := by
                    by_contra hcon
                    push_neg at hcon
                    obtain ⟨e1, e2⟩ := hcon
                    have hidx := @idx_next p.size row col
                    rw [← e1, ← e2] at hidx
                    omega
                  rw [getCell_setCell_ne _ _ hne]
                  apply he _ _ hnr (next_col_lt hcol)
                  have hidx := @idx_next p.size row col
                  omega
                calc g2 = setCell (setCell g row col letter)
                      (nextRow p.size row col) (nextCol p.size col) [] := hg2
                  _ = setCell (setCell g row col letter)
                      (nextRow p.size row col) (nextCol p.size col)
                      (getCell (setCell g row col letter)
                        (nextRow p.size row col) (nextCol p.size col)) := by
                    rw [hcell]
                  _ = setCell g row col letter := setCell_self _ _ _
              · have hlen : (setCell g row col letter).length ≤
                    nextRow p.size row col := by
                  have hl := hs1.1
                  omega
                rw [hg2, setCell_oob _ _ _ _ hlen]
            rw [hg2eq] at hrun
            have hres := ih (setCell g row col letter) g' hs1 he1 hrun
            rw [hres, setCell_setCell]
      · rw [if_neg hck2] at hrun
        have hres := ih (setCell g row col letter) g' hs1 he1 hrun
        rw [hres, setCell_setCell]
    · rw [if_neg hck1] at hrun
      have hres := ih (setCell g row col letter) g' hs1 he1 hrun
      rw [hres, setCell_setCell]

theorem solveF_false {p : Puzzle} :
    ∀ (fuel row col : Nat) (g g' : Grid), wellShaped p.size g →
      row ≤ p.size → col < p.size → emptyAfter p.size g row col →
      solveF fuel g p row col = some (false, g') →
      g' = setCell g row col [] := by
  intro fuel
  induction fuel with
  | zero =>
    intro row col g g' _ _ _ _ hrun
    simp [solveF] at hrun
  | succ f ih =>
    intro row col g g' hs hrow hcol he hrun
    by_cases hterm : row = p.size
    · simp [solveF, hterm] at hrun
    · have hrowlt : row < p.size := lt_of_le_of_ne hrow hterm
      simp only [solveF, if_neg hterm] at hrun
      refine tryLetters_false hcol ?_ p.alphabet g g' hs he hrun
      intro h h' hsh heh hnr
      exact ih (nextRow p.size row col) (nextCol p.size col) h h' hsh
        (next_row_le hrowlt hcol) (next_col_lt hcol) heh hnr

theorem tryLetters_ne_none {next : Grid → Option (Bool × Grid)} {p : Puzzle}
    {row col : Nat} (hnext : ∀ h, next h ≠ none) :
    ∀ (letters : List Str) (g : Grid),
      tryLetters next p row col letters g ≠ none := by
  intro letters
  induction letters with
  | nil => intro g; simp [tryLetters]
  | cons letter rest ih =>
    intro g
    simp only [tryLetters]
    by_cases hck1 : check_regex (p.row_regex.getD row RE.eps)
        (joinRow (setCell g row col letter) row) = true
    · rw [if_pos hck1]
      by_cases hck2 : check_regex (p.col_regex.getD col RE.eps)
          (joinCol (setCell g row col letter) col p.size) = true
      · rw [if_pos hck2]
        cases hng : next (setCell g row col letter) with
        | none => exact absurd hng (hnext _)
        | some pr =>
          obtain ⟨b, g2⟩ := pr
          cases b with
          | true => simp
          | false => exact ih g2
      · rw [if_neg hck2]
        exact ih _
    · rw [if_neg hck1]
      exact ih _

/-- C1: the claim states that whenever `solve` reports success every row
and column string of the resulting grid fully matches its pattern
(anchored at both ends).  The code violates this: on the puzzle `pzAllA`
(N = 2, alphabet only A, every pattern the single letter `A`) the solver
reports success, the first row string is `AA`, and `AA` does not fully
match the pattern `A` — the solver accepted it because `check_regex`
always uses the start-anchored-only `re.match`, the `re.fullmatch` branch
being unreachable. -/
theorem solve_success_not_fullmatch :
    (solve pzAllA).1 = true ∧
    joinRow (solve pzAllA).2 0 = ['A', 'A'] ∧
    reFullmatch (pzAllA.row_regex.getD 0 RE.eps) (joinRow (solve pzAllA).2 0) =
      false := by
  decide

/-- C2: the claim states that a text with no empty-sentinel cell is
checked with full-match semantics.  The code violates this: the sentinel
is the empty string, which Python's containment test finds in every text,
so even the fully assigned text `AA` (no empty cell anywhere) is checked
with prefix semantics: `check_regex` accepts `AA` against the pattern `A`
although `AA` does not fully match `A`. -/
theorem check_regex_fullmatch_dead :
    strHasSub ['A', 'A'] [] = true ∧
    check_regex pOneA ['A', 'A'] = true ∧
    reFullmatch pOneA ['A', 'A'] = false := by
  decide

/-- C3: whenever `solve` reports failure starting from the all-empty grid,
the grid handed back to the caller is again the all-empty grid — every
tentative assignment has been reverted to the empty sentinel. -/
theorem solve_failure_grid_empty (p : Puzzle) (h : (solve p).1 = false) :
    (solve p).2 = empty_grid p.size := by
  unfold solve at h ⊢
  cases hrun : solveF (p.size * p.size + 1) (empty_grid p.size) p 0 0 with
  | none => simp
  | some r =>
    obtain ⟨b, g⟩ := r
    rw [hrun] at h
    cases b with
    | true => exact Bool.noConfusion h
    | false =>
      show g = empty_grid p.size
      by_cases hn : p.size = 0
      · rw [hn] at hrun
        simp [solveF, hn] at hrun
      · have hpos : 0 < p.size := Nat.pos_of_ne_zero hn
        have hg := solveF_false (p.size * p.size + 1) 0 0 (empty_grid p.size) g
          (wellShaped_empty p.size) (Nat.zero_le _) hpos
          (emptyAfter_empty p.size 0 0) hrun
        rw [hg]
        have hc : getCell (empty_grid p.size) 0 0 = [] := getCell_empty _ _ _
        calc setCell (empty_grid p.size) 0 0 []
            = setCell (empty_grid p.size) 0 0 (getCell (empty_grid p.size) 0 0) := by
              rw [hc]
          _ = empty_grid p.size := setCell_self _ _ _

/-- Witness for C3: the spec's unsatisfiable puzzle (N = 2, alphabet only
A, row patterns `AA`, column patterns `AB`) makes the solver fail, and the
grid comes back all-empty. -/
theorem solve_failure_grid_empty_witness :
    (solve pzUnsat).1 = false ∧ (solve pzUnsat).2 = empty_grid pzUnsat.size :=
  ⟨by decide, solve_failure_grid_empty pzUnsat (by decide)⟩

/-- C4: the claim states that on the puzzle N = 2, alphabet A then B, row
patterns `AB`, `BA`, column patterns `AB`, `BA`, the solver succeeds with
grid rows `AB` and `BA`.  The code violates this: it returns failure with
the grid left empty (the first cell can hold neither A nor B because
`re.match` demands the whole two-letter pattern inside the one-letter
partial row).  The last two conjuncts show the expected grid really is a
solution in full-match semantics, so the claimed answer was correct. -/
theorem solve_abba_fails :
    solve pzABBA = (false, empty_grid 2) ∧
    reFullmatch pAB ['A', 'B'] = true ∧
    reFullmatch pBA ['B', 'A'] = true := by
  decide

/-- C5: the claim states that for the pattern `A+B` the partial text
`AA` followed by an empty-sentinel cell is reported compatible.  The code
violates this: the empty sentinel is the empty string, so after joining
the partial row the matcher receives exactly the text `AA`, and
`re.match` on `A+B` against `AA` fails (the whole pattern must match
inside the text).  The other two parts of the claim hold of the code:
`AAB` is reported a match and full `AA` is reported no match. -/
theorem check_regex_plus_partial :
    check_regex pApB ['A', 'A'] = false ∧
    check_regex pApB ['A', 'A', 'B'] = true := by
  decide

/-- C9: `check_regex` is extensionally a pure prefix matcher: the
containment test of the empty string succeeds on every text, so the
full-match branch is unreachable and `check_regex` always returns exactly
`reMatch` (the model of the start-anchored-only `re.match`). -/
theorem check_regex_eq_reMatch :
    (∀ t : Str, strHasSub t [] = true) ∧
    (∀ (p : RE) (t : Str), check_regex p t = reMatch p t) := by
  have hsub : ∀ t : Str, strHasSub t [] = true := by
    intro t
    cases t with
    | nil => rfl
    | cons c ts => simp [strHasSub, strStarts]
  refine ⟨hsub, ?_⟩
  intro p t
  simp [check_regex, hsub t]

theorem parsePatterns_none {l : List Str} {s : Str} (hmem : s ∈ l)
    (hs : parseRE s = none) : parsePatterns l = none := by
  induction l with
  | nil => cases hmem
  | cons x xs ih =>
    rcases List.mem_cons.mp hmem with heq | hmem'
    · subst heq
      simp [parsePatterns, hs]
    · cases hp : parseRE x with
      | none => simp [parsePatterns, hp]
      | some r => simp [parsePatterns, hp, ih hmem']

/-- C6: if any row or column pattern of the raw puzzle is not a
well-formed regular expression, the program fails with
`InvalidPatternError` at puzzle-load time: `mainRun` returns the error,
the loader never produces a puzzle, and consequently the solver — which
only runs on a successfully loaded puzzle — is never entered, so the
error cannot surface during the recursive search. -/
theorem load_rejects_malformed (raw : RawPuzzle)
    (h : (∃ s ∈ raw.row_regex, parseRE s = none) ∨
         (∃ s ∈ raw.col_regex, parseRE s = none)) :
    mainRun raw = Except.error PuzzleError.invalidPattern ∧
    ∀ p : Puzzle, load_puzzle raw ≠ Except.ok p := by
  have hload : load_puzzle raw = Except.error PuzzleError.invalidPattern := by
    unfold load_puzzle
    rcases h with ⟨s, hmem, hs⟩ | ⟨s, hmem, hs⟩
    · rw [parsePatterns_none hmem hs]
    · cases hr : parsePatterns raw.row_regex with
      | none => rfl
      | some rs => rw [parsePatterns_none hmem hs]
  refine ⟨?_, ?_⟩
  · unfold mainRun
    rw [hload]
  · intro p hcon
    rw [hload] at hcon
    exact Except.noConfusion hcon

/-- Witness for C6: a raw puzzle whose first row pattern is the lone `(`
is rejected at load time. -/
theorem load_rejects_malformed_witness :
    mainRun rawBad = Except.error PuzzleError.invalidPattern ∧
    ∀ p : Puzzle, load_puzzle rawBad ≠ Except.ok p :=
  load_rejects_malformed rawBad
    (Or.inl ⟨['('], by simp [rawBad], by decide⟩)

/-- C7: the solver is deterministic — two runs on puzzles with the same
size, the same alphabet in the same order, and the same row and column
patterns return the identical success flag and the identical grid.  The
embedded `solve` is a pure function of exactly these four components, as
the Python code reads nothing else (no randomness, no external state). -/
theorem solve_deterministic (p q : Puzzle) (h1 : p.size = q.size)
    (h2 : p.alphabet = q.alphabet) (h3 : p.row_regex = q.row_regex)
    (h4 : p.col_regex = q.col_regex) : solve p = solve q := by
  obtain ⟨a, b, c, d⟩ := p
  obtain ⟨a', b', c', d'⟩ := q
  cases h1
  cases h2
  cases h3
  cases h4
  rfl

/-- Witness for C7: two separately written copies of the spec's N = 1
puzzle produce identical results. -/
theorem solve_deterministic_witness : solve pzOne = solve pzOneAgain :=
  solve_deterministic pzOne pzOneAgain rfl rfl rfl rfl

/-- C8: for any in-range column (`col < size`) the next search position
computed by the code, `(row + (col+1)//size, (col+1)%size)`, is
`(row, col+1)` unless `col+1 = size`, in which case it wraps to
`(row+1, 0)`; and `solve` returns success immediately with the grid
untouched exactly when `row = size`, otherwise it enters the letter
loop. -/
theorem solveF_advance_terminal (p : Puzzle) (f row col : Nat) (g : Grid)
    (h : col < p.size) :
    (nextRow p.size row col = if col + 1 = p.size then row + 1 else row) ∧
    (nextCol p.size col = if col + 1 = p.size then 0 else col + 1) ∧
    (row = p.size → solveF (f + 1) g p row col = some (true, g)) ∧
    (row ≠ p.size →
      solveF (f + 1) g p row col =
        tryLetters
          (fun g1 => solveF f g1 p (nextRow p.size row col) (nextCol p.size col))
          p row col p.alphabet g) := by
  refine ⟨?_, ?_, ?_, ?_⟩
  · unfold nextRow
    by_cases hc : col + 1 = p.size
    · rw [if_pos hc, hc, Nat.div_self (by omega)]
    · rw [if_neg hc, Nat.div_eq_of_lt (by omega)]
      omega
  · unfold nextCol
    by_cases hc : col + 1 = p.size
    · rw [if_pos hc, hc, Nat.mod_self]
    · rw [if_neg hc, Nat.mod_eq_of_lt (by omega)]
  · intro ht
    simp [solveF, ht]
  · intro ht
    simp [solveF, ht]

/-- Witness for C8: concrete instance on the `pzABBA` puzzle (size 2) at
position (0, 1) — the wrap case. -/
theorem solveF_advance_terminal_witness :
    (1 : Nat) < pzABBA.size ∧
    ((nextRow pzABBA.size 0 1 = if 1 + 1 = pzABBA.size then 0 + 1 else 0) ∧
     (nextCol pzABBA.size 1 = if 1 + 1 = pzABBA.size then 0 else 1 + 1) ∧
     (0 = pzABBA.size →
        solveF (0 + 1) (empty_grid 2) pzABBA 0 1 = some (true, empty_grid 2)) ∧
     (0 ≠ pzABBA.size →
        solveF (0 + 1) (empty_grid 2) pzABBA 0 1 =
          tryLetters
            (fun g1 => solveF 0 g1 pzABBA (nextRow pzABBA.size 0 1)
              (nextCol pzABBA.size 1))
            pzABBA 0 1 pzABBA.alphabet (empty_grid 2))) :=
  ⟨by decide, solveF_advance_terminal pzABBA 0 0 1 (empty_grid 2) (by decide)⟩

/-- C10: the search terminates.  Every call either returns at
`row = size` or recurses at the position one later in row-major order, so
from any valid starting position (`row ≤ size`, `col < max size 1`) the
recursion depth is bounded by `size*size` minus the current row-major
index: with that much fuel plus one, `solveF` never runs out. -/
theorem solveF_terminates (p : Puzzle) :
    ∀ (fuel row col : Nat) (g : Grid), row ≤ p.size → col < max p.size 1 →
      p.size * p.size - (row * p.size + col) < fuel →
      solveF fuel g p row col ≠ none := by
  intro fuel
  induction fuel with
  | zero =>
    intro row col g _ _ hlt
    exact absurd hlt (Nat.not_lt_zero _)
  | succ f ih =>
    intro row col g hrow hcol hfuel
    by_cases hterm : row = p.size
    · simp [solveF, hterm]
    · have hrowlt : row < p.size := lt_of_le_of_ne hrow hterm
      have hcol' : col < p.size := by
        rw [max_eq_left (by omega : 1 ≤ p.size)] at hcol
        exact hcol
      simp only [solveF, if_neg hterm]
      apply tryLetters_ne_none
      intro h
      apply ih
      · exact next_row_le hrowlt hcol'
      · exact lt_of_lt_of_le (next_col_lt hcol') (le_max_left _ _)
      · have hidx := @idx_next p.size row col
        have h1 : row * p.size ≤ (p.size - 1) * p.size :=
          Nat.mul_le_mul_right _ (by omega)
        have h2 : (p.size - 1) * p.size = p.size * p.size - p.size :=
          Nat.sub_one_mul _ _
        have h3 : p.size ≤ p.size * p.size :=
          Nat.le_mul_of_pos_left _ (by omega)
        omega

/-- Witness for C10: on the `pzABBA` puzzle from the start position, fuel
5 = 2*2+1 suffices. -/
theorem solveF_terminates_witness :
    solveF 5 (empty_grid 2) pzABBA 0 0 ≠ none :=
  solveF_terminates pzABBA 5 0 0 (empty_grid 2) (by decide) (by decide)
    (by decide)
